import Mathlib

/-!
# Verification of the flashcard-backend gRPC layer

A shallow embedding, in Lean 4, of the parts of the `cheel98/flashcard-backend`
Go repository that the verified claims concern:

* the Protocol Buffers optimizer (`internal/grpc/protobuf_optimizer.go`):
  `SerializeMessage`, `DeserializeMessage`, `isCompressedData` and the metrics
  update functions;
* the gRPC connection pool (`internal/grpc/connection_pool.go`):
  `GetConnection`, `ReleaseConnection`, `performHealthCheck` and the pooled
  connection predicates;
* the worker pool of the gRPC performance layer (`performance_config.go`):
  `Submit` and `Stop`.

Modelling conventions: byte slices are `List Nat`; Go `int` configuration
fields are `Int`; timestamps and durations are `Int` (nanoseconds, the unit of
Go `time.Duration`); latency averages, computed in `float64` by the source, are
modelled as exact rationals `ℚ`. External library functions (the protobuf
codec `proto.Marshal` / `proto.Unmarshal`, the gzip codec, `grpc.DialContext`)
are parameters of the embedded operations, with `Option` modelling their error
returns. Locking, goroutine scheduling and wall-clock timeouts are outside the
embedding: each embedded operation is the state transformation the source
performs under the corresponding mutex.
-/

namespace FlashcardBackend

/-- Byte slices (`[]byte`) are modelled as lists of byte values. -/
abbrev Bytes := List Nat

/-! ## Protocol Buffers optimizer (`internal/grpc/protobuf_optimizer.go`) -/

/-- Embeds `ProtobufOptimizerConfig`. Fields that do not affect which values
the modelled operations compute are omitted: `CompressionLevel`,
`EnablePooling` and `PoolMaxSize` only change how the gzip bytes are produced
(the compressor itself is a parameter of the operations below), and
`SerializationTimeout` is wall-clock behaviour outside the embedding.
Go `int` fields are modelled as `Int`. -/
structure ProtobufOptimizerConfig where
  enableCompression : Bool
  compressionThreshold : Int
  maxMessageSize : Int
  enableMetrics : Bool
deriving Repr, DecidableEq

/-- Embeds `isCompressedData` (protobuf_optimizer.go:241-244): gzip magic
number detection, `len(data) >= 2 && data[0] == 0x1f && data[1] == 0x8b`. -/
def isCompressedData (data : Bytes) : Bool :=
  match data with
  | b0 :: b1 :: _ => b0 == 0x1f && b1 == 0x8b
  | _ => false

/-- Embeds `SerializeMessage` (protobuf_optimizer.go:102-146). The protobuf
encoder `proto.Marshal` and the gzip compressor `compressData` are external to
the modelled control flow and are passed as the parameters `marshal` and
`compress`, a `none` result modelling their error return. The metrics update
performed by the source's `defer` is modelled separately by
`updateSerializationMetrics`; the context timeout is wall-clock behaviour
outside the embedding. -/
def SerializeMessage {M : Type} (cfg : ProtobufOptimizerConfig)
    (marshal : M → Option Bytes) (compress : Bytes → Option Bytes)
    (msg : M) : Except String Bytes :=
  match marshal msg with
  | none => .error "failed to marshal protobuf message"
  | some data =>
    if (data.length : Int) > cfg.maxMessageSize then
      .error "message size exceeds maximum"
    else if cfg.enableCompression ∧ (data.length : Int) > cfg.compressionThreshold then
      match compress data with
      | none => .ok data -- compression failed: warn and fall back to the uncompressed bytes
      | some compressedData =>
        -- the compressed form is used only when it is smaller
        if compressedData.length < data.length then .ok compressedData
        else .ok data
    else .ok data

/-- Embeds `DeserializeMessage` (protobuf_optimizer.go:149-181). The protobuf
decoder `proto.Unmarshal` and the gzip decompressor `decompressData` are the
parameters `unmarshal` and `decompress`, a `none` result modelling their error
return (on a failed decompression the source warns and tries the direct
unmarshal of the original bytes). -/
def DeserializeMessage {M : Type} (cfg : ProtobufOptimizerConfig)
    (unmarshal : Bytes → Option M) (decompress : Bytes → Option Bytes)
    (data : Bytes) : Except String M :=
  if (data.length : Int) > cfg.maxMessageSize then
    .error "data size exceeds maximum"
  else
    let payload := if cfg.enableCompression ∧ isCompressedData data then
        match decompress data with
        | none => data -- decompression failed: warn, try direct unmarshal
        | some decompressedData => decompressedData
      else data
    match unmarshal payload with
    | none => .error "failed to unmarshal"
    | some m => .ok m

/-- Embeds `ProtobufMetrics` (protobuf_optimizer.go:53-62). Counters and byte
totals are `int64`, modelled as `Int`; `AvgSerializationTime` (a
`time.Duration` computed through `float64`) and `AvgCompressionRatio`
(a `float64`) are modelled as exact rationals. -/
structure ProtobufMetrics where
  serializationCount : Int
  deserializationCount : Int
  compressionCount : Int
  totalSerializedSize : Int
  totalCompressedSize : Int
  avgSerializationTime : ℚ
  avgCompressionRatio : ℚ
deriving Repr, DecidableEq

/-- The zero value of `ProtobufMetrics`, as allocated by
`NewProtobufOptimizer`. -/
def initialMetrics : ProtobufMetrics :=
  { serializationCount := 0, deserializationCount := 0, compressionCount := 0
    totalSerializedSize := 0, totalCompressedSize := 0
    avgSerializationTime := 0, avgCompressionRatio := 0 }

/-- The smoothing factor `alpha := 0.1` of protobuf_optimizer.go:261. -/
def alpha : ℚ := 1 / 10

/-- Embeds `updateSerializationMetrics` (protobuf_optimizer.go:247-264): the
count is incremented first; the first observation seeds the average, later
ones blend by the exponential moving average
`avg * (1 - alpha) + duration * alpha`. The source computes the blend in
`float64` and truncates back to `time.Duration`; the embedding keeps the exact
rational value. -/
def updateSerializationMetrics (m : ProtobufMetrics) (duration : ℚ) :
    ProtobufMetrics :=
  let count := m.serializationCount + 1
  if count = 1 then
    { m with serializationCount := count, avgSerializationTime := duration }
  else
    { m with serializationCount := count,
             avgSerializationTime :=
               m.avgSerializationTime * (1 - alpha) + duration * alpha }

/-- Embeds `updateDeserializationMetrics` (protobuf_optimizer.go:267-276): the
deserialization count is incremented; the `duration` argument is accepted, as
in the source, but no other field is touched. -/
def updateDeserializationMetrics (m : ProtobufMetrics) (_duration : ℚ) :
    ProtobufMetrics :=
  { m with deserializationCount := m.deserializationCount + 1 }

/-- Embeds `updateCompressionMetrics` (protobuf_optimizer.go:279-295):
compression count and byte totals are bumped, and the average compression
ratio is recomputed (a `float64` quotient, modelled as the exact rational)
whenever the serialized total is positive. -/
def updateCompressionMetrics (m : ProtobufMetrics)
    (originalSize compressedSize : Int) : ProtobufMetrics :=
  let m1 := { m with
    compressionCount := m.compressionCount + 1,
    totalSerializedSize := m.totalSerializedSize + originalSize,
    totalCompressedSize := m.totalCompressedSize + compressedSize }
  if m1.totalSerializedSize > 0 then
    { m1 with avgCompressionRatio :=
        (m1.totalCompressedSize : ℚ) / (m1.totalSerializedSize : ℚ) }
  else m1

/-! ## gRPC connection pool (`internal/grpc/connection_pool.go`) -/

/-- The gRPC channel connectivity states read by `PooledConnection.IsHealthy`
through `conn.GetState()`. -/
inductive ConnectivityState where
  | idle | connecting | ready | transientFailure | shutdown
deriving Repr, DecidableEq

/-- Embeds `PooledConnection` (connection_pool.go:40-47). The wrapped
`*grpc.ClientConn` is modelled by the identifier `conn` together with
`connState`, a snapshot of `conn.GetState()` at the observation the theorem
speaks about; both creation sites of the source store a freshly dialed,
non-nil connection, so the defensive `conn == nil` branch of `IsHealthy`
cannot fire for a pooled entry and is not modelled. Times are `Int`
nanosecond timestamps. -/
structure PooledConnection where
  conn : Nat
  connState : ConnectivityState
  lastUsed : Int
  inUse : Bool
  createdAt : Int
  useCount : Int
deriving Repr, DecidableEq

namespace PooledConnection

/-- Embeds `IsHealthy` (connection_pool.go:50-60): the state is `Ready` or
`Idle`. -/
def IsHealthy (pc : PooledConnection) : Bool :=
  pc.connState == .ready || pc.connState == .idle

/-- Embeds `MarkUsed` (connection_pool.go:63-70), at current time `now`. -/
def MarkUsed (now : Int) (pc : PooledConnection) : PooledConnection :=
  { pc with inUse := true, lastUsed := now, useCount := pc.useCount + 1 }

/-- Embeds `MarkIdle` (connection_pool.go:73-79), at current time `now`. -/
def MarkIdle (now : Int) (pc : PooledConnection) : PooledConnection :=
  { pc with inUse := false, lastUsed := now }

/-- Embeds `IsIdle` (connection_pool.go:82-86). -/
def IsIdle (pc : PooledConnection) : Bool := !pc.inUse

/-- Embeds `IsExpired` (connection_pool.go:89-93):
`time.Since(pc.lastUsed) > maxIdleTime`, at current time `now`. -/
def IsExpired (now maxIdleTime : Int) (pc : PooledConnection) : Bool :=
  now - pc.lastUsed > maxIdleTime

end PooledConnection

/-- Embeds `ConnectionPoolConfig` (connection_pool.go:16-24). The
`HealthCheckPeriod`, `ConnectTimeout` and keep-alive fields drive wall-clock
scheduling and the dialer, which are outside the embedding. Go `int` and
`time.Duration` fields are `Int`. -/
structure ConnectionPoolConfig where
  maxConnections : Int
  minConnections : Int
  maxIdleTime : Int
deriving Repr, DecidableEq

/-- The pool's connection map `map[string][]*PooledConnection`, modelled as an
association list over targets. `NewConnectionPool` (connection_pool.go:118-138)
allocates it empty: `make(map[string][]*PooledConnection)`. -/
abbrev PoolState := List (String × List PooledConnection)

/-- The empty map created by `NewConnectionPool`; the health-check goroutine it
starts is modelled by explicit applications of `performHealthCheck`. -/
def NewConnectionPool : PoolState := []

/-- Reads `cp.connections[target]`: a missing key reads as the empty (nil)
slice. -/
def lookupConns (pool : PoolState) (target : String) : List PooledConnection :=
  (pool.lookup target).getD []

/-- Store `conns` under `target`, as assignment to a Go map key does. -/
def setConns (pool : PoolState) (target : String)
    (conns : List PooledConnection) : PoolState :=
  match pool with
  | [] => [(target, conns)]
  | (t, cs) :: rest =>
    if target == t then (t, conns) :: rest
    else (t, cs) :: setConns rest target conns

/-- The linear scan of `GetConnection` (connection_pool.go:146-153): find the
first pooled connection that is idle and healthy, mark it used, and return its
`conn` together with the updated slice; `none` when no reusable connection
exists. -/
def markFirstAvailable (now : Int) :
    List PooledConnection → Option (Nat × List PooledConnection)
  | [] => none
  | pc :: rest =>
    if pc.IsIdle && pc.IsHealthy then
      some (pc.conn, pc.MarkUsed now :: rest)
    else
      match markFirstAvailable now rest with
      | some (c, rest') => some (c, pc :: rest')
      | none => none

/-- Embeds `GetConnection` (connection_pool.go:141-179). The dialer
`createConnection` (a `grpc.DialContext` wrapper) is external and is passed as
`dial`: `some c` is a successful dial returning connection `c`, `none` a dial
error. A new connection enters the pool marked in-use with `useCount` 1; a
fresh blocking dial yields a `Ready` channel. -/
def GetConnection (cfg : ConnectionPoolConfig) (now : Int) (dial : Option Nat)
    (pool : PoolState) (target : String) : Except String Nat × PoolState :=
  let conns := lookupConns pool target
  match markFirstAvailable now conns with
  | some (c, conns') => (.ok c, setConns pool target conns')
  | none =>
    if (conns.length : Int) < cfg.maxConnections then
      match dial with
      | none => (.error "failed to create connection", pool)
      | some c =>
        (.ok c, setConns pool target (conns ++
          [{ conn := c, connState := .ready, lastUsed := now, inUse := true,
             createdAt := now, useCount := 1 }]))
    else
      (.error "connection pool exhausted", pool)

/-- The linear scan of `ReleaseConnection` (connection_pool.go:186-193): mark
idle the first pooled connection wrapping `c` and stop. -/
def releaseInList (now : Int) (c : Nat) :
    List PooledConnection → List PooledConnection
  | [] => []
  | pc :: rest =>
    if pc.conn == c then pc.MarkIdle now :: rest
    else pc :: releaseInList now c rest

/-- Embeds `ReleaseConnection` (connection_pool.go:182-194). -/
def ReleaseConnection (now : Int) (pool : PoolState) (target : String)
    (c : Nat) : PoolState :=
  setConns pool target (releaseInList now c (lookupConns pool target))

/-- The per-connection survival test of `performHealthCheck`
(connection_pool.go:239-255): a connection is kept unless it fails `IsHealthy`
(closed and dropped) or is idle and past the max-idle expiry (closed and
dropped). -/
def survivesHealthCheck (cfg : ConnectionPoolConfig) (now : Int)
    (pc : PooledConnection) : Bool :=
  pc.IsHealthy && !(pc.IsIdle && pc.IsExpired now cfg.maxIdleTime)

/-- A connection established by the minimum-connection top-up of
`performHealthCheck` (connection_pool.go:271-277): idle, `useCount` 0, and
`Ready` after the blocking dial. -/
def newMinConnection (now : Int) (c : Nat) : PooledConnection :=
  { conn := c, connState := .ready, lastUsed := now, inUse := false,
    createdAt := now, useCount := 0 }

/-- The top-up loop of `performHealthCheck` (connection_pool.go:260-281):
`needed` dial attempts, indexed 0, 1, …; a failed dial (`dials i = none`) is
logged and skipped, a successful one appends a fresh idle connection. -/
def topUpConns (now : Int) (dials : Nat → Option Nat) (needed : Nat)
    (conns : List PooledConnection) : List PooledConnection :=
  conns ++ ((List.range needed).filterMap dials).map (newMinConnection now)

/-- One target's slice after a health-check cycle
(connection_pool.go:236-282): evict the connections failing
`survivesHealthCheck`, then, when fewer than `MinConnections` remain, dial
`MinConnections - len(healthy)` new connections. -/
def healthCheckTarget (cfg : ConnectionPoolConfig) (now : Int)
    (dials : Nat → Option Nat) (conns : List PooledConnection) :
    List PooledConnection :=
  let healthy := conns.filter (survivesHealthCheck cfg now)
  if (healthy.length : Int) < cfg.minConnections then
    topUpConns now dials (cfg.minConnections - healthy.length).toNat healthy
  else healthy

/-- Embeds `performHealthCheck` (connection_pool.go:232-283): the cycle
processes exactly the targets present in the map, each with its own dial
results `dials target`. -/
def performHealthCheck (cfg : ConnectionPoolConfig) (now : Int)
    (dials : String → Nat → Option Nat) (pool : PoolState) : PoolState :=
  pool.map (fun p => (p.1, healthCheckTarget cfg now (dials p.1) p.2))

/-! ## Worker pool (`performance_config.go`) -/

/-- What becomes of a job handed to `WorkerPool.Submit`. `enqueued` is the
successful buffered-channel send `wp.jobQueue <- job`; `spawnedGoroutine` is
the `default` branch, which starts the job immediately on a NEW goroutine via
`go job()`; `ranSynchronously` (running the job to completion on the caller's
own goroutine before `Submit` returns) is expressible but never produced by
the source. -/
inductive SubmitAction where
  | enqueued | spawnedGoroutine | ranSynchronously
deriving Repr, DecidableEq

/-- Embeds `WorkerPool` (performance_config.go). Jobs `func()` are opaque
values of a type `J`; the buffered channel `jobQueue` is its backlog list plus
the capacity `queueSize` fixed by `NewWorkerPool`; `quitClosed` records
whether `close(wp.quit)` has happened. -/
structure WorkerPool (J : Type) where
  workerCount : Int
  jobQueue : List J
  queueCap : Nat
  quitClosed : Bool
deriving Repr, DecidableEq

/-- Embeds `WorkerPool.Submit` (performance_config.go): a non-blocking
`select` that enqueues when the buffered channel has room and otherwise warns
and runs `go job()`. The send succeeds exactly when the buffer is below
capacity (workers drain the queue asynchronously; their concurrent receives
are separate transitions outside this one-step model). The returned action
says what happened to the job; no error value exists to return. -/
def Submit {J : Type} (wp : WorkerPool J) (job : J) :
    WorkerPool J × SubmitAction :=
  if wp.jobQueue.length < wp.queueCap then
    ({ wp with jobQueue := wp.jobQueue ++ [job] }, .enqueued)
  else
    (wp, .spawnedGoroutine)

/-- Embeds `WorkerPool.Stop` (performance_config.go): `close(wp.quit)`.
Closing an already-closed Go channel panics at runtime; the panic is modelled
by `none`. -/
def Stop {J : Type} (wp : WorkerPool J) : Option (WorkerPool J) :=
  if wp.quitClosed then none
  else some { wp with quitClosed := true }

/-! ## Theorems -/

/-- C10: for every input byte sequence whose length exceeds `MaxMessageSize`,
`DeserializeMessage` returns an error before attempting any decompression or
decoding: the result is the size error and is the same for every decompressor
and every decoder, so neither is consulted. -/
theorem deserialize_rejects_oversize {M : Type} (cfg : ProtobufOptimizerConfig)
    (unmarshal unmarshal' : Bytes → Option M)
    (decompress decompress' : Bytes → Option Bytes) (data : Bytes)
    (hbig : (data.length : Int) > cfg.maxMessageSize) :
    DeserializeMessage cfg unmarshal decompress data
      = .error "data size exceeds maximum" ∧
    DeserializeMessage cfg unmarshal decompress data
      = DeserializeMessage cfg unmarshal' decompress' data := by
  unfold DeserializeMessage
  rw [if_pos hbig, if_pos hbig]
  exact ⟨rfl, rfl⟩

/-- Witness for `deserialize_rejects_oversize`: a 3-byte input against a
2-byte `MaxMessageSize`. -/
theorem deserialize_rejects_oversize_witness :
    DeserializeMessage ⟨true, 1, 2, true⟩ (fun _ => (none : Option Nat))
      (fun _ => none) [0, 0, 0] = .error "data size exceeds maximum" :=
  (deserialize_rejects_oversize ⟨true, 1, 2, true⟩ (fun _ => (none : Option Nat))
    (fun _ => none) (fun _ => none) (fun _ => none) [0, 0, 0] (by decide)).1

/-- C6: a message whose encoding exceeds `MaxMessageSize` is rejected with the
size error, and the rejection happens before any compression attempt (the
result does not depend on the compressor); moreover every byte sequence
`SerializeMessage` returns is within `MaxMessageSize`. -/
theorem serialize_size_limit {M : Type} (cfg : ProtobufOptimizerConfig)
    (marshal : M → Option Bytes) (compress compress' : Bytes → Option Bytes)
    (m : M) (d : Bytes) (hm : marshal m = some d) :
    ((d.length : Int) > cfg.maxMessageSize →
      SerializeMessage cfg marshal compress m
        = .error "message size exceeds maximum" ∧
      SerializeMessage cfg marshal compress m
        = SerializeMessage cfg marshal compress' m)
    ∧ (∀ out, SerializeMessage cfg marshal compress m = .ok out →
        (out.length : Int) ≤ cfg.maxMessageSize) := by
  constructor
  · intro hbig
    simp only [SerializeMessage, hm]
    rw [if_pos hbig, if_pos hbig]
    exact ⟨rfl, rfl⟩
  · intro out hout
    simp only [SerializeMessage, hm] at hout
    by_cases hbig : (d.length : Int) > cfg.maxMessageSize
    · rw [if_pos hbig] at hout
      exact absurd hout (by simp)
    · rw [if_neg hbig] at hout
      push_neg at hbig
      split at hout
      · split at hout
        · cases hout
          exact hbig
        · rename_i c _
          split at hout
          · rename_i hlt
            cases hout
            omega
          · cases hout
            exact hbig
      · cases hout
        exact hbig

/-- Witness for `serialize_size_limit`: a 3-byte encoding against a 2-byte
`MaxMessageSize` is rejected. -/
theorem serialize_size_limit_witness :
    SerializeMessage ⟨true, 1, 2, true⟩ (fun _ : Nat => some [0, 0, 0])
      (fun _ => none) 0 = .error "message size exceeds maximum" :=
  ((serialize_size_limit ⟨true, 1, 2, true⟩ (fun _ : Nat => some [0, 0, 0])
    (fun _ => none) (fun _ => some []) 0 [0, 0, 0] rfl).1 (by decide)).1

/-- C5: for a message within the size limit, `SerializeMessage` returns the
compressed form only when it is strictly smaller than the uncompressed
encoding; when the compressed form is not strictly smaller the original bytes
come back unchanged, and on compression failure the uncompressed bytes come
back without error. -/
theorem serialize_compression_policy {M : Type} (cfg : ProtobufOptimizerConfig)
    (marshal : M → Option Bytes) (compress : Bytes → Option Bytes)
    (m : M) (d : Bytes) (hm : marshal m = some d)
    (hsize : (d.length : Int) ≤ cfg.maxMessageSize) :
    (∀ out, SerializeMessage cfg marshal compress m = .ok out →
      out = d ∨ ∃ c, compress d = some c ∧ out = c ∧ c.length < d.length)
    ∧ (compress d = none → SerializeMessage cfg marshal compress m = .ok d)
    ∧ (∀ c, compress d = some c → d.length ≤ c.length →
        SerializeMessage cfg marshal compress m = .ok d) := by
  have hbig : ¬((d.length : Int) > cfg.maxMessageSize) := not_lt.mpr hsize
  refine ⟨?_, ?_, ?_⟩
  · intro out hout
    simp only [SerializeMessage, hm] at hout
    rw [if_neg hbig] at hout
    split at hout
    · split at hout
      · cases hout
        exact Or.inl rfl
      · rename_i c hc
        split at hout
        · rename_i hlt
          simp only [Except.ok.injEq] at hout
          subst hout
          exact Or.inr ⟨_, hc, rfl, hlt⟩
        · cases hout
          exact Or.inl rfl
    · cases hout
      exact Or.inl rfl
  · intro hfail
    simp only [SerializeMessage, hm]
    rw [if_neg hbig]
    split
    · rw [hfail]
    · rfl
  · intro c hc hge
    simp only [SerializeMessage, hm]
    rw [if_neg hbig]
    split
    · rw [hc]
      simp [not_lt.mpr hge]
    · rfl

/-- Witness for `serialize_compression_policy`: an inflating compressor (the
compressed form is one byte longer) makes `SerializeMessage` return the
original encoding unchanged. -/
theorem serialize_compression_policy_witness :
    SerializeMessage ⟨true, 1, 100, true⟩ (fun _ : Nat => some [1, 2, 3])
      (fun d => some (0 :: d)) 0 = .ok [1, 2, 3] :=
  (serialize_compression_policy ⟨true, 1, 100, true⟩
    (fun _ : Nat => some [1, 2, 3]) (fun d => some (0 :: d)) 0 [1, 2, 3]
    rfl (by decide)).2.2 [0, 1, 2, 3] rfl (by decide)

/-- Evaluation lemma: `DeserializeMessage` on in-size bytes without the gzip
magic prefix decodes them directly. -/
theorem deserialize_not_compressed {M : Type} (cfg : ProtobufOptimizerConfig)
    (unmarshal : Bytes → Option M) (decompress : Bytes → Option Bytes)
    (data : Bytes) (m : M)
    (hsize : ¬((data.length : Int) > cfg.maxMessageSize))
    (hplain : isCompressedData data = false)
    (hum : unmarshal data = some m) :
    DeserializeMessage cfg unmarshal decompress data = .ok m := by
  simp only [DeserializeMessage, if_neg hsize]
  simp [hplain, hum]

/-- Evaluation lemma: with compression enabled, `DeserializeMessage` on
in-size bytes carrying the gzip magic prefix decompresses and then decodes. -/
theorem deserialize_compressed {M : Type} (cfg : ProtobufOptimizerConfig)
    (unmarshal : Bytes → Option M) (decompress : Bytes → Option Bytes)
    (data payload : Bytes) (m : M)
    (hsize : ¬((data.length : Int) > cfg.maxMessageSize))
    (hen : cfg.enableCompression = true)
    (hmag : isCompressedData data = true)
    (hd : decompress data = some payload)
    (hum : unmarshal payload = some m) :
    DeserializeMessage cfg unmarshal decompress data = .ok m := by
  simp only [DeserializeMessage, if_neg hsize]
  simp [hen, hmag, hd, hum]

/-- C1: for every message whose encoding `SerializeMessage` accepts (within
`MaxMessageSize`), `DeserializeMessage` on the returned bytes reconstructs the
message, on the compressed path (the compressed bytes carry the gzip magic
prefix, hypothesis `hmagic`, and decompression inverts compression,
hypothesis `hcd`) as well as on the uncompressed path. Hypothesis `hplain`
holds of the real codec: a protobuf wire encoding never begins with byte
0x1f, whose low three bits name the invalid wire type 7, so `proto.Marshal`
output never carries the two-byte gzip magic prefix. -/
theorem serialize_deserialize_roundtrip {M : Type}
    (cfg : ProtobufOptimizerConfig)
    (marshal : M → Option Bytes) (unmarshal : Bytes → Option M)
    (compress decompress : Bytes → Option Bytes) (m : M) (d : Bytes)
    (hm : marshal m = some d)
    (hum : unmarshal d = some m)
    (hsize : (d.length : Int) ≤ cfg.maxMessageSize)
    (hcd : ∀ b c, compress b = some c → decompress c = some b)
    (hmagic : ∀ b c, compress b = some c → isCompressedData c = true)
    (hplain : isCompressedData d = false) :
    ∃ out, SerializeMessage cfg marshal compress m = .ok out ∧
      DeserializeMessage cfg unmarshal decompress out = .ok m := by
  have hbig : ¬((d.length : Int) > cfg.maxMessageSize) := not_lt.mpr hsize
  have hplainD := deserialize_not_compressed cfg unmarshal decompress d m
    hbig hplain hum
  simp only [SerializeMessage, hm]
  rw [if_neg hbig]
  by_cases hcond : cfg.enableCompression ∧ (d.length : Int) > cfg.compressionThreshold
  · rw [if_pos hcond]
    cases hc : compress d with
    | none => exact ⟨d, rfl, hplainD⟩
    | some c =>
      show ∃ out,
        (if c.length < d.length then (Except.ok c : Except String Bytes)
          else Except.ok d) = Except.ok out ∧
        DeserializeMessage cfg unmarshal decompress out = Except.ok m
      by_cases hlt : c.length < d.length
      · rw [if_pos hlt]
        have hsizec : ¬((c.length : Int) > cfg.maxMessageSize) := by
          push_neg
          omega
        exact ⟨c, rfl, deserialize_compressed cfg unmarshal decompress c d m
          hsizec hcond.1 (hmagic d c hc) (hcd d c hc) hum⟩
      · rw [if_neg hlt]
        exact ⟨d, rfl, hplainD⟩
  · rw [if_neg hcond]
    exact ⟨d, rfl, hplainD⟩

/-- Witness for `serialize_deserialize_roundtrip`: a concrete invertible,
shrinking compressor whose output carries the gzip magic prefix; the 6-byte
encoding of the message exceeds the 1-byte compression threshold, so the
compressed path is the one exercised. -/
theorem serialize_deserialize_roundtrip_witness :
    ∃ out,
      SerializeMessage ⟨true, 1, 100, true⟩
        (fun n : Nat => some [8, n, 0, 0, 0, 0])
        (fun b => if b = [8, 7, 0, 0, 0, 0] then some [31, 139, 0] else none)
        7 = .ok out ∧
      DeserializeMessage ⟨true, 1, 100, true⟩
        (fun b => match b with | [8, n, 0, 0, 0, 0] => some n | _ => none)
        (fun c => if c = [31, 139, 0] then some [8, 7, 0, 0, 0, 0] else none)
        out = .ok 7 := by
  refine serialize_deserialize_roundtrip ⟨true, 1, 100, true⟩ _ _ _ _ 7
    [8, 7, 0, 0, 0, 0] rfl rfl (by decide) ?_ ?_ (by decide)
  · intro b c h
    split at h
    · rename_i hb
      subst hb
      simp only [Option.some.injEq] at h
      subst h
      simp
    · exact absurd h (by simp)
  · intro b c h
    split at h
    · simp only [Option.some.injEq] at h
      subst h
      rfl
    · exact absurd h (by simp)

/-- C9 counterexample: at the concrete input (fresh metrics, first observed
latency 5), `updateDeserializationMetrics` increments the deserialization
counter and changes nothing else; in particular the latency average is not
seeded with the observation — it stays 0 — refuting the claim that every
deserialize call updates the exponential moving average of latency. -/
theorem deserialize_metrics_no_latency_cex :
    updateDeserializationMetrics initialMetrics 5
      = { initialMetrics with deserializationCount := 1 } ∧
    (updateDeserializationMetrics initialMetrics 5).avgSerializationTime = 0 ∧
    (0 : ℚ) ≠ 5 := by
  refine ⟨rfl, rfl, by norm_num⟩

/-- C9 amended: every serialize call increments the serialization counter and
updates the exponential moving average of latency (the first observation seeds
it, later ones blend 90% prior with 10% new); every deserialize call
increments the deserialization counter and touches no other field — no
latency average is maintained for deserialization. -/
theorem metrics_update_behaviour (m : ProtobufMetrics) (d : ℚ) :
    (updateSerializationMetrics m d).serializationCount
      = m.serializationCount + 1
    ∧ (m.serializationCount + 1 = 1 →
        (updateSerializationMetrics m d).avgSerializationTime = d)
    ∧ (m.serializationCount + 1 ≠ 1 →
        (updateSerializationMetrics m d).avgSerializationTime
          = m.avgSerializationTime * (9 / 10) + d * (1 / 10))
    ∧ updateDeserializationMetrics m d
        = { m with deserializationCount := m.deserializationCount + 1 } := by
  refine ⟨?_, ?_, ?_, rfl⟩
  · by_cases h : m.serializationCount + 1 = 1 <;>
      simp [updateSerializationMetrics, h]
  · intro h
    simp [updateSerializationMetrics, h]
  · intro h
    simp only [updateSerializationMetrics, if_neg h]
    norm_num [alpha]

/-- Witness for `metrics_update_behaviour`: the first serialize observation
(latency 5) seeds the average, the second (latency 25) blends to
`5 * (9/10) + 25 * (1/10) = 7`. -/
theorem metrics_update_behaviour_witness :
    (updateSerializationMetrics initialMetrics 5).avgSerializationTime = 5 ∧
    (updateSerializationMetrics
        (updateSerializationMetrics initialMetrics 5) 25).avgSerializationTime
      = 5 * (9 / 10) + 25 * (1 / 10) :=
  ⟨(metrics_update_behaviour initialMetrics 5).2.1 (by decide),
   (metrics_update_behaviour (updateSerializationMetrics initialMetrics 5)
      25).2.2.1 (by decide)⟩

/-- C2 counterexample: at the concrete input (queue `[0]` at its capacity 1,
job 7), `Submit` hands the job to a freshly spawned goroutine (`go job()`), an
action distinct from running it synchronously on the caller's own execution
context — refuting the claim that a job arriving at a full queue is executed
synchronously on the caller's own execution context. -/
theorem submit_full_queue_spawns_cex :
    (Submit (⟨2, [0], 1, false⟩ : WorkerPool Nat) 7).2
      = SubmitAction.spawnedGoroutine ∧
    SubmitAction.spawnedGoroutine ≠ SubmitAction.ranSynchronously := by
  decide

/-- C2 amended: `Submit` is non-blocking, returns no error, and never
discards a job: with free capacity the job is appended to the queue, and at a
full queue the job is started immediately on a newly spawned goroutine (not
synchronously on the caller's goroutine) instead of being enqueued. -/
theorem submit_no_drop {J : Type} (wp : WorkerPool J) (job : J) :
    (wp.jobQueue.length < wp.queueCap →
      Submit wp job
        = ({ wp with jobQueue := wp.jobQueue ++ [job] }, .enqueued))
    ∧ (¬ wp.jobQueue.length < wp.queueCap →
        Submit wp job = (wp, .spawnedGoroutine))
    ∧ ((Submit wp job).2 = .enqueued ∨ (Submit wp job).2 = .spawnedGoroutine) := by
  by_cases h : wp.jobQueue.length < wp.queueCap <;>
    simp [Submit, h]

/-- Witness for `submit_no_drop`: a queue with room enqueues, a full queue
spawns. -/
theorem submit_no_drop_witness :
    Submit (⟨2, [], 2, false⟩ : WorkerPool Nat) 5
      = (⟨2, [5], 2, false⟩, .enqueued) ∧
    Submit (⟨2, [0, 1], 2, false⟩ : WorkerPool Nat) 5
      = (⟨2, [0, 1], 2, false⟩, .spawnedGoroutine) :=
  ⟨(submit_no_drop (⟨2, [], 2, false⟩ : WorkerPool Nat) 5).1 (by decide),
   (submit_no_drop (⟨2, [0, 1], 2, false⟩ : WorkerPool Nat) 5).2.1 (by decide)⟩

/-- C8: a first call to `Stop` closes the quit channel and reaches the stopped
state, but a second call is `close` of an already-closed channel, which panics
(modelled by `none`) — the code does not deliver the idempotence the spec
documents. -/
theorem stop_double_close_panics :
    Stop (⟨2, [], 4, false⟩ : WorkerPool Nat) = some ⟨2, [], 4, true⟩ ∧
    (Stop (⟨2, [], 4, false⟩ : WorkerPool Nat)).bind Stop = none := by
  decide

/-- A connection that passes the survival test is still in the slice after
the health-check cycle. -/
theorem mem_healthCheckTarget_of_survives (cfg : ConnectionPoolConfig)
    (now : Int) (dials : Nat → Option Nat) (conns : List PooledConnection)
    (pc : PooledConnection) (hmem : pc ∈ conns)
    (hs : survivesHealthCheck cfg now pc = true) :
    pc ∈ healthCheckTarget cfg now dials conns := by
  have hf : pc ∈ conns.filter (survivesHealthCheck cfg now) :=
    List.mem_filter.mpr ⟨hmem, hs⟩
  simp only [healthCheckTarget]
  split
  · simp only [topUpConns]
    exact List.mem_append_left _ hf
  · exact hf

/-- C4 counterexample: at the concrete input (a single connection that is
marked in-use but in `TransientFailure` state), the health-check cycle closes
and removes it — refuting the claim that a connection marked in-use survives
every cycle. -/
theorem healthCheck_evicts_inuse_cex :
    (⟨1, .transientFailure, 0, true, 0, 3⟩ : PooledConnection).inUse = true ∧
    healthCheckTarget ⟨4, 2, 300⟩ 10 (fun _ => none)
      [⟨1, .transientFailure, 0, true, 0, 3⟩] = [] := by
  decide

/-- C4 amended: every connection the health-check cycle evicts either failed
the liveness check (whether or not it was in use) or was idle longer than the
max-idle duration; a connection that is marked in-use and passes the liveness
check survives every cycle. -/
theorem healthCheck_eviction_policy (cfg : ConnectionPoolConfig) (now : Int)
    (dials : Nat → Option Nat) (conns : List PooledConnection)
    (pc : PooledConnection) (hmem : pc ∈ conns) :
    (pc ∉ healthCheckTarget cfg now dials conns →
      pc.IsHealthy = false
        ∨ (pc.IsIdle = true ∧ pc.IsExpired now cfg.maxIdleTime = true))
    ∧ (pc.IsHealthy = true → pc.inUse = true →
        pc ∈ healthCheckTarget cfg now dials conns) := by
  constructor
  · intro hnot
    by_contra hcontra
    push_neg at hcontra
    obtain ⟨h1, h2⟩ := hcontra
    apply hnot
    apply mem_healthCheckTarget_of_survives cfg now dials conns pc hmem
    cases hh : pc.IsHealthy with
    | false => exact absurd hh h1
    | true =>
      simp only [survivesHealthCheck, hh, Bool.true_and]
      cases hi : pc.IsIdle with
      | false => simp
      | true =>
        cases he : pc.IsExpired now cfg.maxIdleTime with
        | false => simp
        | true => exact absurd he (h2 hi)
  · intro hh hu
    apply mem_healthCheckTarget_of_survives cfg now dials conns pc hmem
    simp [survivesHealthCheck, hh, PooledConnection.IsIdle, hu]

/-- Witness for `healthCheck_eviction_policy`: a healthy in-use connection
survives the cycle. -/
theorem healthCheck_eviction_policy_witness :
    (⟨1, .ready, 0, true, 0, 1⟩ : PooledConnection)
      ∈ healthCheckTarget ⟨4, 2, 300⟩ 10 (fun _ => none)
        [⟨1, .ready, 0, true, 0, 1⟩] :=
  (healthCheck_eviction_policy ⟨4, 2, 300⟩ 10 (fun _ => none)
    [⟨1, .ready, 0, true, 0, 1⟩] ⟨1, .ready, 0, true, 0, 1⟩
    (by decide)).2 rfl rfl

/-- C7 counterexample: at the concrete input (`MinConnections = 2`,
`MaxConnections = 4`, a freshly constructed pool, one health-check cycle with
every dial succeeding), the destination has 0 connections, not 2: the
health-check cycle iterates only the targets already present in the map, and
`NewConnectionPool` makes the map empty. -/
theorem healthCheck_fresh_pool_cex :
    performHealthCheck ⟨4, 2, 300⟩ 10 (fun _ _ => some 1) NewConnectionPool
      = NewConnectionPool ∧
    (lookupConns (performHealthCheck ⟨4, 2, 300⟩ 10 (fun _ _ => some 1)
        NewConnectionPool) "d").length = 0 ∧
    (0 : Nat) ≠ 2 := by
  decide

/-- C7 amended: with `MinConnections = 2` and `MaxConnections = 4`, once the
destination has entered the pool map — one `GetConnection` (dial succeeds)
followed by `ReleaseConnection` — a single health-check cycle during which the
destination is reachable (every dial succeeds) and the released connection is
healthy and not idle-expired leaves exactly 2 connections, both idle: the
cycle tops the set up toward `MinConnections`. -/
theorem healthCheck_tops_up_released_target :
    (lookupConns
      (performHealthCheck ⟨4, 2, 300⟩ 2 (fun _ i => some (100 + i))
        (ReleaseConnection 1
          (GetConnection ⟨4, 2, 300⟩ 0 (some 7) NewConnectionPool "d").2
          "d" 7))
      "d").length = 2 ∧
    ∀ pc ∈ lookupConns
      (performHealthCheck ⟨4, 2, 300⟩ 2 (fun _ i => some (100 + i))
        (ReleaseConnection 1
          (GetConnection ⟨4, 2, 300⟩ 0 (some 7) NewConnectionPool "d").2
          "d" 7))
      "d", pc.IsIdle = true := by
  decide

/-- The connection-count invariant of the spec: for every destination, the
number of tracked connections lies within `[0, MaxConnections]`. -/
def connCountInvariant (cfg : ConnectionPoolConfig) (pool : PoolState) : Prop :=
  ∀ t, 0 ≤ ((lookupConns pool t).length : Int) ∧
    ((lookupConns pool t).length : Int) ≤ cfg.maxConnections

/-- Marking the first matching connection idle does not change the count. -/
theorem releaseInList_length (now : Int) (c : Nat)
    (l : List PooledConnection) :
    (releaseInList now c l).length = l.length := by
  induction l with
  | nil => rfl
  | cons pc rest ih =>
    simp only [releaseInList]
    split <;> simp [ih]

/-- Marking the first available connection as used does not change the
count. -/
theorem markFirstAvailable_length (now : Int) :
    ∀ {l : List PooledConnection} {c : Nat} {l' : List PooledConnection},
      markFirstAvailable now l = some (c, l') → l'.length = l.length := by
  intro l
  induction l with
  | nil => intro c l' h; simp [markFirstAvailable] at h
  | cons pc rest ih =>
    intro c l' h
    simp only [markFirstAvailable] at h
    split at h
    · simp only [Option.some.injEq, Prod.mk.injEq] at h
      rw [← h.2]
      simp
    · split at h
      · rename_i c' rest' heq
        simp only [Option.some.injEq, Prod.mk.injEq] at h
        rw [← h.2]
        simp [ih heq]
      · exact absurd h (by simp)

/-- Reading back a map after storing under `target`. -/
theorem lookupConns_setConns (pool : PoolState) (target t : String)
    (conns : List PooledConnection) :
    lookupConns (setConns pool target conns) t
      = if t = target then conns else lookupConns pool t := by
  induction pool with
  | nil =>
    simp only [setConns, lookupConns, List.lookup]
    by_cases h : t = target
    · subst h
      simp
    · have hbeq : (t == target) = false := beq_eq_false_iff_ne.mpr h
      simp [hbeq, h]
  | cons p rest ih =>
    obtain ⟨k, v⟩ := p
    simp only [setConns]
    by_cases hk : target = k
    · subst hk
      simp only [beq_self_eq_true, if_true]
      by_cases ht : t = target
      · subst ht
        simp [lookupConns, List.lookup]
      · have hbeq : (t == target) = false := beq_eq_false_iff_ne.mpr ht
        simp [lookupConns, List.lookup, hbeq, ht]
    · rw [if_neg (by simp [hk] : ¬ ((target == k) = true))]
      by_cases hkt : t = k
      · have hbeq : (t == k) = true := beq_iff_eq.mpr hkt
        have hnt : ¬ t = target := fun h => hk (h.symm.trans hkt)
        simp only [lookupConns, List.lookup, hbeq]
        rw [if_neg hnt]
      · have hbeq : (t == k) = false := beq_eq_false_iff_ne.mpr hkt
        simp only [lookupConns, List.lookup, hbeq]
        have hih := ih
        simp only [lookupConns] at hih
        exact hih

/-- Reading back a map after a health-check cycle: a target absent from the
map stays absent, a present one holds its cycle result. -/
theorem lookupConns_performHealthCheck (cfg : ConnectionPoolConfig)
    (now : Int) (dials : String → Nat → Option Nat) (pool : PoolState)
    (t : String) :
    lookupConns (performHealthCheck cfg now dials pool) t
      = match pool.lookup t with
        | none => []
        | some conns => healthCheckTarget cfg now (dials t) conns := by
  induction pool with
  | nil => rfl
  | cons p rest ih =>
    obtain ⟨k, v⟩ := p
    by_cases hkt : t = k
    · subst hkt
      simp [performHealthCheck, lookupConns, List.lookup]
    · have hbeq : (t == k) = false := beq_eq_false_iff_ne.mpr hkt
      simp only [performHealthCheck, List.map_cons, lookupConns, List.lookup,
        hbeq]
      have hih := ih
      simp only [performHealthCheck, lookupConns] at hih
      exact hih

/-- One health-check cycle keeps a target's count within `MaxConnections`
whenever it was within the bound and `MinConnections ≤ MaxConnections`: the
eviction pass only shrinks the slice, and the top-up stops at
`MinConnections`. -/
theorem healthCheckTarget_length_le (cfg : ConnectionPoolConfig) (now : Int)
    (dials : Nat → Option Nat) (conns : List PooledConnection)
    (hmax : ((conns.length : Nat) : Int) ≤ cfg.maxConnections)
    (hminmax : cfg.minConnections ≤ cfg.maxConnections) :
    ((healthCheckTarget cfg now dials conns).length : Int)
      ≤ cfg.maxConnections := by
  have hf : (conns.filter (survivesHealthCheck cfg now)).length
      ≤ conns.length := List.length_filter_le _ _
  simp only [healthCheckTarget]
  split
  · rename_i hlt
    simp only [topUpConns, List.length_append, List.length_map]
    have hk : ((List.range
        (cfg.minConnections
          - ((conns.filter (survivesHealthCheck cfg now)).length : Int)).toNat
        ).filterMap dials).length
        ≤ (cfg.minConnections
          - ((conns.filter (survivesHealthCheck cfg now)).length : Int)).toNat :=
      le_trans (List.length_filterMap_le _ _) (le_of_eq (List.length_range _))
    push_cast
    omega
  · omega

/-- C3: when `MinConnections ≤ MaxConnections`, every destination's tracked
connection count stays within `[0, MaxConnections]` across each of the pool's
operations: `GetConnection` (for any dial outcome), `ReleaseConnection`, and a
health-check cycle (for any dial outcomes). -/
theorem connection_count_bounded (cfg : ConnectionPoolConfig)
    (hminmax : cfg.minConnections ≤ cfg.maxConnections)
    (pool : PoolState) (hinv : connCountInvariant cfg pool) :
    (∀ now dial target,
      connCountInvariant cfg (GetConnection cfg now dial pool target).2)
    ∧ (∀ now target c,
      connCountInvariant cfg (ReleaseConnection now pool target c))
    ∧ (∀ now dials,
      connCountInvariant cfg (performHealthCheck cfg now dials pool)) := by
  refine ⟨?_, ?_, ?_⟩
  · intro now dial target
    cases hma : markFirstAvailable now (lookupConns pool target) with
    | some p =>
      obtain ⟨c, conns'⟩ := p
      simp only [GetConnection, hma]
      intro t
      rw [lookupConns_setConns]
      by_cases ht : t = target
      · rw [if_pos ht]
        rw [markFirstAvailable_length now hma]
        exact hinv target
      · rw [if_neg ht]
        exact hinv t
    | none =>
      simp only [GetConnection, hma]
      split
      · rename_i hlen
        cases dial with
        | none => exact hinv
        | some c =>
          intro t
          simp only []
          rw [lookupConns_setConns]
          by_cases ht : t = target
          · rw [if_pos ht]
            rw [List.length_append]
            constructor
            · positivity
            · push_cast
              simp only [List.length_cons, List.length_nil]
              omega
          · rw [if_neg ht]
            exact hinv t
      · exact hinv
  · intro now target c t
    simp only [ReleaseConnection]
    rw [lookupConns_setConns]
    by_cases ht : t = target
    · rw [if_pos ht]
      rw [releaseInList_length]
      exact hinv target
    · rw [if_neg ht]
      exact hinv t
  · intro now dials t
    rw [lookupConns_performHealthCheck]
    cases hl : pool.lookup t with
    | none =>
      have h0 := (hinv t).2
      simp only [lookupConns, hl, Option.getD_none] at h0
      constructor
      · positivity
      · simpa using h0
    | some conns =>
      have hb := (hinv t).2
      simp only [lookupConns, hl, Option.getD_some] at hb
      exact ⟨by positivity, healthCheckTarget_length_le cfg now (dials t)
        conns hb hminmax⟩

/-- Witness for `connection_count_bounded`: a pool holding one connection for
destination `"d"` under `MaxConnections = 4` keeps the bound across a
`GetConnection` that dials a second connection. -/
theorem connection_count_bounded_witness :
    connCountInvariant ⟨4, 2, 300⟩
      (GetConnection ⟨4, 2, 300⟩ 5 (some 9)
        [("d", [⟨1, .ready, 0, true, 0, 1⟩])] "d").2 := by
  have hinv : connCountInvariant ⟨4, 2, 300⟩
      [("d", [⟨1, .ready, 0, true, 0, 1⟩])] := by
    intro t
    by_cases ht : t = "d"
    · subst ht
      exact ⟨by decide, by decide⟩
    · have hbeq : (t == "d") = false := beq_eq_false_iff_ne.mpr ht
      simp [lookupConns, List.lookup, hbeq]
  exact (connection_count_bounded ⟨4, 2, 300⟩ (by decide) _ hinv).1 5 (some 9)
    "d"

end FlashcardBackend
